import Mathlib

/-!
# Shallow embedding of `cybertron::base::BlockingQueue`

This file embeds the blocking double-ended queue of the Cybertron repository.
The repository holds two drafts of the class: `src/base/blocking_queue.hpp`
(methods `PushBack`, `PushFront`, `PopFront`, `PopBack`, `Size`, `Capacity`,
`Empty`, `Full`, `Front`, `Back`, `Clear`) and an older draft (methods
`push_back`, `push_front`, `pop_front`, `pop_back`, `close`, `size`,
`capacity`, `empty`, `full`, `front`, `back`, `clear`).  The two drafts share
the data model and most logic; where they differ the embedding models both
variants and names the header's variant with an `hpp` prefix (the snake_case
names follow the older draft, which is the one that compiles).

Waits are modeled single-threaded: no other thread can change the state while
a call is waiting, so a `wait (lock, pred)` completes immediately when `pred`
holds on the current state and otherwise blocks forever (outcome `blocked`),
and a `wait_for (lock, dur, pred)` returns `pred` evaluated on the current
state (it returns at once when the predicate holds, and otherwise the timeout
expires with the predicate still false).  Condition-variable notification has
no observable effect in this model; the `notify_one` on the consumer condition
performed by the pushes is recorded as a boolean in the outcome because the
specification refers to it, and the producer-side notifications of the pops
are not recorded.
-/

namespace Cybertron

/-- The mutable state of a `BlockingQueue<T>`: the two construction-time
constants `_push_block` and `_capacity_limit`, the `_active` flag and the
`std::deque<T> _dequeue` (head of the list = front of the deque).  The mutex
and the two condition variables carry no state in the single-threaded model. -/
structure BlockingQueue (T : Type) where
  push_block : Bool
  active : Bool
  capacity_limit : Nat
  dequeue : List T
  deriving Repr, DecidableEq

/-- The constructor `BlockingQueue(size_t capacity_limit = 0, bool push_block
= false)`: starts active with an empty deque. -/
def mkQueue (T : Type) (capacity_limit : Nat) (push_block : Bool) : BlockingQueue T :=
  { push_block := push_block, active := true, capacity_limit := capacity_limit, dequeue := [] }

/-- `close()`: under the lock, clear the deque and set `_active = false`,
then notify all waiters (no observable effect here). -/
def close {T : Type} (q : BlockingQueue T) : BlockingQueue T :=
  { q with dequeue := [], active := false }

/-- The producer wait predicate shared by all four push overloads:
`(!_active) || (!_capacity_limit) || (_capacity_limit && (_dequeue.size() < _capacity_limit))`. -/
def producerPred {T : Type} (q : BlockingQueue T) : Bool :=
  (!q.active) || (q.capacity_limit == 0) ||
    ((q.capacity_limit != 0) && decide (q.dequeue.length < q.capacity_limit))

/-- The consumer wait predicate of `pop_front`/`pop_back` (and of the
header's untimed branch): `(!_active) || (!_dequeue.empty())`. -/
def consumerPred {T : Type} (q : BlockingQueue T) : Bool :=
  (!q.active) || (!q.dequeue.isEmpty)

/-- The non-blocking eviction loop of `push_back`:
`while (_capacity_limit && _dequeue.size() >= _capacity_limit) { _dequeue.pop_front(); }`.
Each iteration removes the front element, so the recursion on the list is
structural. -/
def evictFrontWhileFull {T : Type} (cap : Nat) : List T → List T
  | [] => []
  | x :: xs =>
    if cap ≠ 0 ∧ cap ≤ (x :: xs).length then evictFrontWhileFull cap xs else x :: xs

/-- The non-blocking eviction loop of `push_front`:
`while (_capacity_limit && _dequeue.size() >= _capacity_limit) { _dequeue.pop_back(); }`,
unrolled on a fuel counter.  Each iteration removes the back element, so the
loop runs at most `size` times and a fuel of the initial size is exact. -/
def evictBackLoop {T : Type} (cap : Nat) : Nat → List T → List T
  | 0, l => l
  | fuel + 1, l => if cap ≠ 0 ∧ cap ≤ l.length then evictBackLoop cap fuel l.dropLast else l

/-- The `push_front` eviction loop started with its exact fuel. -/
def evictBackWhileFull {T : Type} (cap : Nat) (l : List T) : List T :=
  evictBackLoop cap l.length l

/-- Outcome of a push call in the single-threaded model. -/
inductive PushOutcome (T : Type) where
  /-- The call executed a `return b` statement; `notifiedConsumer` records
  whether `_consumer.notify_one()` ran on this path; `q` is the state at
  return. -/
  | ret (b : Bool) (notifiedConsumer : Bool) (q : BlockingQueue T)
  /-- Control reached the closing brace of a non-void function with no
  `return` statement: the returned boolean is undefined.  `notifiedConsumer`
  and `q` are as in `ret`. -/
  | retUndef (notifiedConsumer : Bool) (q : BlockingQueue T)
  /-- An untimed `wait` whose predicate is false: the call never returns. -/
  | blocked
  deriving Repr, DecidableEq

/-- Outcome of a pop call in the single-threaded model. -/
inductive PopOutcome (T : Type) where
  /-- The call executed `return b`; `out = some v` when the call wrote `v`
  into the caller's output reference and `none` when it left it untouched;
  `q` is the state at return. -/
  | ret (b : Bool) (out : Option T) (q : BlockingQueue T)
  /-- An untimed `wait` whose predicate is false: the call never returns. -/
  | blocked
  /-- The call read `_dequeue.front()` or `_dequeue.back()` on an empty
  deque: undefined behavior. -/
  | ubAccess
  deriving Repr, DecidableEq

/-- Result of the blocking-producer wait-and-check prologue shared by the
four push overloads in blocking mode:

```
bool is_woken_up = false;
if (timeout) { is_woken_up = _producer.wait_for(lock, us(timeout), pred); }
else { _producer.wait(lock, pred); is_woken_up = true; }
if ((!_active) || (!is_woken_up)) { return false; }
```

`none` models the untimed wait blocking forever; `some false` the
`return false` path; `some true` falling through to the insertion. -/
def producerGate {T : Type} (q : BlockingQueue T) (timeout : Int) : Option Bool :=
  if timeout ≠ 0 then
    let is_woken_up := producerPred q
    if (!q.active) || (!is_woken_up) then some false else some true
  else
    if producerPred q then
      if (!q.active) || (!true) then some false else some true
    else none

/-- `push_back(element, timeout)` (both overloads are identical): in blocking
mode run the producer gate; in non-blocking mode run the evict-from-front
loop; then `_dequeue.push_back(element); _consumer.notify_one(); return true;`. -/
def push_back {T : Type} (q : BlockingQueue T) (element : T) (timeout : Int) :
    PushOutcome T :=
  if q.push_block then
    match producerGate q timeout with
    | none => .blocked
    | some false => .ret false false q
    | some true => .ret true true { q with dequeue := q.dequeue ++ [element] }
  else
    let q1 : BlockingQueue T :=
      { q with dequeue := evictFrontWhileFull q.capacity_limit q.dequeue }
    .ret true true { q1 with dequeue := q1.dequeue ++ [element] }

/-- `push_front(element, timeout)` (both overloads are identical): in
blocking mode run the producer gate; in non-blocking mode run the
evict-from-back loop; then `_dequeue.push_front(element);
_consumer.notify_one();` — and then control falls off the end of the
function: the success path has no `return` statement, so the returned
boolean is undefined (`retUndef`). -/
def push_front {T : Type} (q : BlockingQueue T) (item : T) (timeout : Int) :
    PushOutcome T :=
  if q.push_block then
    match producerGate q timeout with
    | none => .blocked
    | some false => .ret false false q
    | some true => .retUndef true { q with dequeue := item :: q.dequeue }
  else
    let q1 : BlockingQueue T :=
      { q with dequeue := evictBackWhileFull q.capacity_limit q.dequeue }
    .retUndef true { q1 with dequeue := item :: q1.dequeue }

/-- Result of the consumer wait-and-check prologue of `pop_front`/`pop_back`
(same shape as `producerGate`, with the consumer predicate). -/
def consumerGate {T : Type} (q : BlockingQueue T) (timeout : Int) : Option Bool :=
  if timeout ≠ 0 then
    let is_woken_up := consumerPred q
    if (!q.active) || (!is_woken_up) then some false else some true
  else
    if consumerPred q then
      if (!q.active) || (!true) then some false else some true
    else none

/-- `pop_front(element, timeout)`: wait on the consumer condition, fail on
`(!_active) || (!is_woken_up)`, otherwise `element = _dequeue.front();
_dequeue.pop_front();`, notify a producer when `_push_block`, `return true`. -/
def pop_front {T : Type} (q : BlockingQueue T) (timeout : Int) : PopOutcome T :=
  match consumerGate q timeout with
  | none => .blocked
  | some false => .ret false none q
  | some true =>
    match q.dequeue with
    | [] => .ubAccess
    | x :: xs => .ret true (some x) { q with dequeue := xs }

/-- `pop_back(element, timeout)`: as `pop_front` with `element =
_dequeue.back(); _dequeue.pop_back();`. -/
def pop_back {T : Type} (q : BlockingQueue T) (timeout : Int) : PopOutcome T :=
  match consumerGate q timeout with
  | none => .blocked
  | some false => .ret false none q
  | some true =>
    match q.dequeue.getLast? with
    | none => .ubAccess
    | some x => .ret true (some x) { q with dequeue := q.dequeue.dropLast }

/-- `size()`: `_dequeue.size()` under the lock. -/
def size {T : Type} (q : BlockingQueue T) : Nat := q.dequeue.length

/-- `empty()`: `_dequeue.empty()` under the lock. -/
def empty {T : Type} (q : BlockingQueue T) : Bool := q.dequeue.isEmpty

/-- `full()` (and the header's `Full()`, whose body is the same):
`return (_dequeue.size() >= _capacity_limit);` under the lock — there is no
special case for `_capacity_limit == 0`. -/
def full {T : Type} (q : BlockingQueue T) : Bool :=
  decide (q.dequeue.length ≥ q.capacity_limit)

/-- Outcome of a boundary peek (`front()`/`back()`). -/
inductive PeekOutcome (T : Type) where
  /-- The accessor returned a copy of the boundary element. -/
  | ok (t : T)
  /-- The accessor called `_dequeue.front()`/`_dequeue.back()` on an empty
  deque: undefined behavior (an access past the boundary of the empty
  buffer). -/
  | ub
  deriving Repr, DecidableEq

/-- `front()` (and the header's `Front()`, whose body is the same):
`return _dequeue.front();` under the lock, with no emptiness check — on an
empty deque this is the undefined boundary access. -/
def front {T : Type} (q : BlockingQueue T) : PeekOutcome T :=
  match q.dequeue with
  | [] => .ub
  | x :: _ => .ok x

/-- `back()` (and the header's `Back()`, whose body is the same):
`return _dequeue.back();` under the lock, with no emptiness check. -/
def back {T : Type} (q : BlockingQueue T) : PeekOutcome T :=
  match q.dequeue.getLast? with
  | none => .ub
  | some x => .ok x

/-- The busy loop at the start of the older draft's `clear()`:
`while (_dequeue.size()) {}` — the body is empty and the lock is held, so
the deque cannot change between iterations.  `fuel` bounds the number of
iterations we are willing to unroll; `none` means the loop had not exited
after `fuel` iterations. -/
def clearBusyLoop {T : Type} : Nat → List T → Option (List T)
  | 0, _ => none
  | fuel + 1, l => if l.length ≠ 0 then clearBusyLoop fuel l else some l

/-- The older draft's `clear()`: `while (_dequeue.size()) {} _dequeue.clear();`
under the lock.  `none` means the call had not returned within `fuel`
iterations of the busy loop. -/
def clear {T : Type} (fuel : Nat) (q : BlockingQueue T) : Option (BlockingQueue T) :=
  match clearBusyLoop fuel q.dequeue with
  | none => none
  | some _ => some { q with dequeue := [] }

/-- The header draft's `Clear()`: `deque_.clear();` under the lock. -/
def hppClear {T : Type} (q : BlockingQueue T) : BlockingQueue T :=
  { q with dequeue := [] }

/-- The header draft's `PopFront(item, timeout)`.  Its timed branch waits on
the predicate `((!active_) || (deque_.empty()))` — `deque_.empty()`, not
`!deque_.empty()` as in its own untimed branch, in `PopBack`'s doc and in the
older draft.  The `bool` returned by the predicate overload of `wait_for` is
stored into a `std::cv_status` (which by itself does not compile); it is
modeled by the natural reading the surrounding code assumes: predicate true
at return ↦ `no_timeout`, predicate false ↦ `timeout`, so the subsequent
test `(!active_) || (is_timeout == std::cv_status::timeout)` fails exactly
when the queue is active and the predicate held. -/
def hppPopFront {T : Type} (q : BlockingQueue T) (timeout : Int) : PopOutcome T :=
  if timeout ≠ 0 then
    let woken := (!q.active) || q.dequeue.isEmpty
    if (!q.active) || (!woken) then .ret false none q
    else
      match q.dequeue with
      | [] => .ubAccess
      | x :: xs => .ret true (some x) { q with dequeue := xs }
  else
    if consumerPred q then
      if (!q.active) || (!true) then .ret false none q
      else
        match q.dequeue with
        | [] => .ubAccess
        | x :: xs => .ret true (some x) { q with dequeue := xs }
    else .blocked

/-! ## Operation sequences

A single thread issuing calls against one queue.  An operation that returns
yields the next externally observable state; an operation that blocks forever
(or runs into undefined behavior) yields no further observable state. -/

/-- One call a client thread can issue. `clearOp` is the header draft's
`Clear()` (the older draft's `clear()` is treated separately, since its busy
loop does not return on a nonempty queue). -/
inductive Op (T : Type) where
  | pushBackOp (x : T) (timeout : Int)
  | pushFrontOp (x : T) (timeout : Int)
  | popFrontOp (timeout : Int)
  | popBackOp (timeout : Int)
  | closeOp
  | clearOp
  deriving Repr, DecidableEq

/-- The state after a call returns, or `none` when the call never returns
normally. -/
def stepState {T : Type} (q : BlockingQueue T) : Op T → Option (BlockingQueue T)
  | .pushBackOp x t =>
    match push_back q x t with
    | .ret _ _ q' => some q'
    | .retUndef _ q' => some q'
    | .blocked => none
  | .pushFrontOp x t =>
    match push_front q x t with
    | .ret _ _ q' => some q'
    | .retUndef _ q' => some q'
    | .blocked => none
  | .popFrontOp t =>
    match pop_front q t with
    | .ret _ _ q' => some q'
    | .blocked => none
    | .ubAccess => none
  | .popBackOp t =>
    match pop_back q t with
    | .ret _ _ q' => some q'
    | .blocked => none
    | .ubAccess => none
  | .closeOp => some (close q)
  | .clearOp => some (hppClear q)

/-- Externally observable reachability: `Reaches q q'` when some sequence of
returning calls leads from `q` to `q'`. -/
inductive Reaches {T : Type} : BlockingQueue T → BlockingQueue T → Prop where
  | refl (q : BlockingQueue T) : Reaches q q
  | step {q q' q'' : BlockingQueue T} {op : Op T} :
      Reaches q q' → stepState q' op = some q'' → Reaches q q''

/-- Run a list of calls from a state; `none` as soon as one call never
returns. -/
def execOps {T : Type} (q : BlockingQueue T) : List (Op T) → Option (BlockingQueue T)
  | [] => some q
  | op :: ops =>
    match stepState q op with
    | none => none
    | some q' => execOps q' ops

/-- Issue the untimed `push_back` once per element, left to right. `none` if
a call blocks. -/
def pushBackRun {T : Type} (q : BlockingQueue T) : List T → Option (BlockingQueue T)
  | [] => some q
  | x :: xs =>
    match push_back q x 0 with
    | .ret _ _ q' => pushBackRun q' xs
    | .retUndef _ q' => pushBackRun q' xs
    | .blocked => none

/-- Issue the untimed `push_front` once per element, left to right. -/
def pushFrontRun {T : Type} (q : BlockingQueue T) : List T → Option (BlockingQueue T)
  | [] => some q
  | x :: xs =>
    match push_front q x 0 with
    | .ret _ _ q' => pushFrontRun q' xs
    | .retUndef _ q' => pushFrontRun q' xs
    | .blocked => none

/-- Issue the untimed `pop_front` `n` times, collecting the successfully
delivered elements in call order; `none` unless every call returns `true`
with an element. -/
def popFrontN {T : Type} (q : BlockingQueue T) : Nat → Option (List T × BlockingQueue T)
  | 0 => some ([], q)
  | n + 1 =>
    match pop_front q 0 with
    | .ret true (some x) q' =>
      match popFrontN q' n with
      | some (l, q'') => some (x :: l, q'')
      | none => none
    | _ => none

/-- Issue the untimed `pop_back` `n` times, collecting the delivered
elements in call order. -/
def popBackN {T : Type} (q : BlockingQueue T) : Nat → Option (List T × BlockingQueue T)
  | 0 => some ([], q)
  | n + 1 =>
    match pop_back q 0 with
    | .ret true (some x) q' =>
      match popBackN q' n with
      | some (l, q'') => some (x :: l, q'')
      | none => none
    | _ => none

/-- Push all of `xs` at the back of a fresh unbounded non-blocking queue,
then pop them all from the front, returning the popped sequence. -/
def runBackFront (xs : List Nat) : Option (List Nat) :=
  match pushBackRun (mkQueue Nat 0 false) xs with
  | some q => (popFrontN q xs.length).map Prod.fst
  | none => none

/-- Push all of `xs` at the back, then pop them all from the back. -/
def runBackBack (xs : List Nat) : Option (List Nat) :=
  match pushBackRun (mkQueue Nat 0 false) xs with
  | some q => (popBackN q xs.length).map Prod.fst
  | none => none

/-- Push all of `xs` at the front, then pop them all from the back. -/
def runFrontBack (xs : List Nat) : Option (List Nat) :=
  match pushFrontRun (mkQueue Nat 0 false) xs with
  | some q => (popBackN q xs.length).map Prod.fst
  | none => none

/-- Push all of `xs` at the front, then pop them all from the front. -/
def runFrontFront (xs : List Nat) : Option (List Nat) :=
  match pushFrontRun (mkQueue Nat 0 false) xs with
  | some q => (popFrontN q xs.length).map Prod.fst
  | none => none

/-! ## Arbitrary single-threaded push/pop sequences -/

/-- One push or pop call, with the timeout the client passes. -/
inductive DequeOp (T : Type) where
  | pushBackOp (x : T) (timeout : Int)
  | pushFrontOp (x : T) (timeout : Int)
  | popFrontOp (timeout : Int)
  | popBackOp (timeout : Int)
  deriving Repr, DecidableEq

/-- The observable effect of one call on the queue: the state at return
together with the element the call delivered into the caller's output slot
(`none` for a push or a failed pop), or `none` when the call never
returns. -/
def queueStep {T : Type} (q : BlockingQueue T) : DequeOp T → Option (BlockingQueue T × Option T)
  | .pushBackOp x t =>
    match push_back q x t with
    | .ret _ _ q' => some (q', none)
    | .retUndef _ q' => some (q', none)
    | .blocked => none
  | .pushFrontOp x t =>
    match push_front q x t with
    | .ret _ _ q' => some (q', none)
    | .retUndef _ q' => some (q', none)
    | .blocked => none
  | .popFrontOp t =>
    match pop_front q t with
    | .ret _ out q' => some (q', out)
    | .blocked => none
    | .ubAccess => none
  | .popBackOp t =>
    match pop_back q t with
    | .ret _ out q' => some (q', out)
    | .blocked => none
    | .ubAccess => none

/-- Run a sequence of calls issued by one thread, collecting the delivered
element (or `none`) of each call in order; `none` as soon as one call never
returns. -/
def queueRun {T : Type} (q : BlockingQueue T) :
    List (DequeOp T) → Option (BlockingQueue T × List (Option T))
  | [] => some (q, [])
  | op :: ops =>
    match queueStep q op with
    | none => none
    | some (q', out) =>
      match queueRun q' ops with
      | none => none
      | some (qf, outs) => some (qf, out :: outs)

/-- The ordinary unbounded double-ended queue the claim compares the code
against, following the spec's words: a push appends at its end and always
succeeds (delivering nothing), a pop removes and delivers the boundary
element, and a pop of the empty deque delivers nothing and leaves the deque
unchanged.  Timeouts are irrelevant to an ordinary deque. -/
def specDequeStep {T : Type} (l : List T) : DequeOp T → List T × Option T
  | .pushBackOp x _ => (l ++ [x], none)
  | .pushFrontOp x _ => (x :: l, none)
  | .popFrontOp _ =>
    match l with
    | [] => (l, none)
    | y :: ys => (ys, some y)
  | .popBackOp _ =>
    match l.getLast? with
    | none => (l, none)
    | some y => (l.dropLast, some y)

/-- Run the ordinary deque over a sequence of calls, collecting each call's
delivered element in order. -/
def specDequeRun {T : Type} (l : List T) : List (DequeOp T) → List T × List (Option T)
  | [] => (l, [])
  | op :: ops =>
    let s := specDequeStep l op
    let r := specDequeRun s.1 ops
    (r.1, s.2 :: r.2)

/-- A concrete interleaved sequence: two back-pushes, a front-pop, a
front-push, two timed back-pops, and a timed front-pop of the by-then-empty
queue. -/
def demoOps : List (DequeOp Nat) :=
  [DequeOp.pushBackOp 1 0, DequeOp.pushBackOp 2 0, DequeOp.popFrontOp 0,
    DequeOp.pushFrontOp 3 0, DequeOp.popBackOp 5, DequeOp.popBackOp 7,
    DequeOp.popFrontOp 4]

/-! ## Helper lemmas -/

theorem evictFrontWhileFull_cap_zero {T : Type} (l : List T) :
    evictFrontWhileFull 0 l = l := by
  cases l with
  | nil => rfl
  | cons x xs => simp [evictFrontWhileFull]

theorem evictFrontWhileFull_of_lt {T : Type} {cap : Nat} {l : List T}
    (h : l.length < cap) : evictFrontWhileFull cap l = l := by
  cases l with
  | nil => rfl
  | cons x xs =>
    simp only [evictFrontWhileFull]
    rw [if_neg]
    intro hco
    omega

theorem evictFrontWhileFull_length_lt {T : Type} {cap : Nat} (hc : cap ≠ 0) :
    ∀ l : List T, (evictFrontWhileFull cap l).length < cap := by
  intro l
  induction l with
  | nil => simpa [evictFrontWhileFull] using Nat.pos_of_ne_zero hc
  | cons x xs ih =>
    by_cases h : cap ≤ (x :: xs).length
    · rw [evictFrontWhileFull, if_pos ⟨hc, h⟩]
      exact ih
    · rw [evictFrontWhileFull, if_neg (fun hco => h hco.2)]
      omega

theorem evictFrontWhileFull_eq_tail {T : Type} {cap : Nat} {l : List T}
    (hc : cap ≠ 0) (h : l.length = cap) : evictFrontWhileFull cap l = l.tail := by
  cases l with
  | nil => exact absurd h.symm hc
  | cons x xs =>
    rw [evictFrontWhileFull, if_pos ⟨hc, by omega⟩]
    exact evictFrontWhileFull_of_lt (by simp at h ⊢; omega)

theorem evictBackLoop_cap_zero {T : Type} (fuel : Nat) (l : List T) :
    evictBackLoop 0 fuel l = l := by
  cases fuel <;> simp [evictBackLoop]

theorem evictBackLoop_of_lt {T : Type} {cap : Nat} {l : List T} (fuel : Nat)
    (h : l.length < cap) : evictBackLoop cap fuel l = l := by
  cases fuel with
  | zero => rfl
  | succ n =>
    rw [evictBackLoop, if_neg]
    intro hco
    omega

theorem evictBackLoop_length_lt {T : Type} {cap : Nat} (hc : cap ≠ 0) :
    ∀ (fuel : Nat) (l : List T), l.length ≤ fuel →
      (evictBackLoop cap fuel l).length < cap := by
  intro fuel
  induction fuel with
  | zero =>
    intro l hl
    rw [evictBackLoop]
    omega
  | succ n ih =>
    intro l hl
    by_cases h : cap ≤ l.length
    · rw [evictBackLoop, if_pos ⟨hc, h⟩]
      exact ih l.dropLast (by rw [List.length_dropLast]; omega)
    · rw [evictBackLoop, if_neg (fun hco => h hco.2)]
      omega

theorem evictBackWhileFull_cap_zero {T : Type} (l : List T) :
    evictBackWhileFull 0 l = l :=
  evictBackLoop_cap_zero l.length l

theorem evictBackWhileFull_length_lt {T : Type} {cap : Nat} (hc : cap ≠ 0)
    (l : List T) : (evictBackWhileFull cap l).length < cap :=
  evictBackLoop_length_lt hc l.length l le_rfl

theorem evictBackWhileFull_eq_dropLast {T : Type} {cap : Nat} {l : List T}
    (hc : cap ≠ 0) (h : l.length = cap) : evictBackWhileFull cap l = l.dropLast := by
  unfold evictBackWhileFull
  obtain ⟨k, hk⟩ := Nat.exists_eq_succ_of_ne_zero hc
  rw [h, hk, evictBackLoop, if_pos ⟨by omega, by omega⟩]
  exact evictBackLoop_of_lt k (by rw [List.length_dropLast]; omega)

theorem producerGate_some_true {T : Type} {q : BlockingQueue T} {t : Int}
    (h : producerGate q t = some true) :
    q.active = true ∧ producerPred q = true := by
  unfold producerGate at h
  by_cases ht : t ≠ 0
  · rw [if_pos ht] at h
    have h' : (if (!q.active || !producerPred q) = true then (some false : Option Bool)
        else some true) = some true := h
    by_cases hcond : (!q.active || !producerPred q) = true
    · rw [if_pos hcond] at h'
      simp at h'
    · rw [if_neg hcond] at h'
      simpa using hcond
  · rw [if_neg ht] at h
    by_cases hpred : producerPred q = true
    · rw [if_pos hpred] at h
      by_cases hcond : (!q.active || !true) = true
      · rw [if_pos hcond] at h
        simp at h
      · simp at hcond
        exact ⟨hcond, hpred⟩
    · rw [if_neg hpred] at h
      simp at h

theorem producerPred_bound {T : Type} {q : BlockingQueue T}
    (ha : q.active = true) (hp : producerPred q = true)
    (hc : q.capacity_limit ≠ 0) : q.dequeue.length < q.capacity_limit := by
  simp [producerPred, ha, hc] at hp
  exact hp

theorem consumerGate_some_true {T : Type} {q : BlockingQueue T} {t : Int}
    (h : consumerGate q t = some true) :
    q.active = true ∧ consumerPred q = true := by
  unfold consumerGate at h
  by_cases ht : t ≠ 0
  · rw [if_pos ht] at h
    have h' : (if (!q.active || !consumerPred q) = true then (some false : Option Bool)
        else some true) = some true := h
    by_cases hcond : (!q.active || !consumerPred q) = true
    · rw [if_pos hcond] at h'
      simp at h'
    · rw [if_neg hcond] at h'
      simpa using hcond
  · rw [if_neg ht] at h
    by_cases hpred : consumerPred q = true
    · rw [if_pos hpred] at h
      by_cases hcond : (!q.active || !true) = true
      · rw [if_pos hcond] at h
        simp at h
      · simp at hcond
        exact ⟨hcond, hpred⟩
    · rw [if_neg hpred] at h
      simp at h

theorem stepState_preserves_inv {T : Type} {cap : Nat} (hc : cap ≠ 0)
    {q q' : BlockingQueue T} {op : Op T}
    (hcap : q.capacity_limit = cap) (hlen : q.dequeue.length ≤ cap)
    (hstep : stepState q op = some q') :
    q'.capacity_limit = cap ∧ q'.dequeue.length ≤ cap := by
  cases op with
  | pushBackOp x t =>
    simp only [stepState] at hstep
    by_cases hpb : q.push_block = true
    · rw [push_back, if_pos hpb] at hstep
      cases hg : producerGate q t with
      | none => rw [hg] at hstep; simp at hstep
      | some b =>
        cases b with
        | false =>
          rw [hg] at hstep
          simp at hstep
          exact hstep ▸ ⟨hcap, hlen⟩
        | true =>
          rw [hg] at hstep
          simp at hstep
          obtain ⟨ha, hp⟩ := producerGate_some_true hg
          have hb := producerPred_bound ha hp (hcap ▸ hc)
          subst hstep
          constructor
          · exact hcap
          · simp
            omega
    · rw [push_back, if_neg hpb] at hstep
      simp at hstep
      have hb := evictFrontWhileFull_length_lt (hcap ▸ hc) q.dequeue
      subst hstep
      constructor
      · exact hcap
      · simp
        omega
  | pushFrontOp x t =>
    simp only [stepState] at hstep
    by_cases hpb : q.push_block = true
    · rw [push_front, if_pos hpb] at hstep
      cases hg : producerGate q t with
      | none => rw [hg] at hstep; simp at hstep
      | some b =>
        cases b with
        | false =>
          rw [hg] at hstep
          simp at hstep
          exact hstep ▸ ⟨hcap, hlen⟩
        | true =>
          rw [hg] at hstep
          simp at hstep
          obtain ⟨ha, hp⟩ := producerGate_some_true hg
          have hb := producerPred_bound ha hp (hcap ▸ hc)
          subst hstep
          constructor
          · exact hcap
          · simp
            omega
    · rw [push_front, if_neg hpb] at hstep
      simp at hstep
      have hb := evictBackWhileFull_length_lt (hcap ▸ hc) q.dequeue
      subst hstep
      constructor
      · exact hcap
      · simp
        omega
  | popFrontOp t =>
    simp only [stepState] at hstep
    rw [pop_front] at hstep
    cases hg : consumerGate q t with
    | none => rw [hg] at hstep; simp at hstep
    | some b =>
      cases b with
      | false =>
        rw [hg] at hstep
        simp at hstep
        exact hstep ▸ ⟨hcap, hlen⟩
      | true =>
        rw [hg] at hstep
        cases hd : q.dequeue with
        | nil => rw [hd] at hstep; simp at hstep
        | cons x xs =>
          rw [hd] at hstep
          simp at hstep
          subst hstep
          refine ⟨hcap, ?_⟩
          rw [hd] at hlen
          simp at hlen ⊢
          omega
  | popBackOp t =>
    simp only [stepState] at hstep
    rw [pop_back] at hstep
    cases hg : consumerGate q t with
    | none => rw [hg] at hstep; simp at hstep
    | some b =>
      cases b with
      | false =>
        rw [hg] at hstep
        simp at hstep
        exact hstep ▸ ⟨hcap, hlen⟩
      | true =>
        rw [hg] at hstep
        cases hd : q.dequeue.getLast? with
        | none => rw [hd] at hstep; simp at hstep
        | some x =>
          rw [hd] at hstep
          simp at hstep
          subst hstep
          refine ⟨hcap, ?_⟩
          simp [List.length_dropLast]
          omega
  | closeOp =>
    simp only [stepState, close] at hstep
    injection hstep with hq
    subst hq
    exact ⟨hcap, by simp⟩
  | clearOp =>
    simp only [stepState, hppClear] at hstep
    injection hstep with hq
    subst hq
    exact ⟨hcap, by simp⟩

theorem push_back_unbounded {T : Type} {q : BlockingQueue T} (hpb : q.push_block = false)
    (hcap : q.capacity_limit = 0) (x : T) (t : Int) :
    push_back q x t = .ret true true { q with dequeue := q.dequeue ++ [x] } := by
  rw [push_back, if_neg (by simp [hpb])]
  simp [hcap, evictFrontWhileFull_cap_zero]

theorem push_front_unbounded {T : Type} {q : BlockingQueue T} (hpb : q.push_block = false)
    (hcap : q.capacity_limit = 0) (x : T) (t : Int) :
    push_front q x t = .retUndef true { q with dequeue := x :: q.dequeue } := by
  rw [push_front, if_neg (by simp [hpb])]
  simp [hcap, evictBackWhileFull_cap_zero]

theorem pushBackRun_unbounded {T : Type} :
    ∀ (xs : List T) (q : BlockingQueue T), q.push_block = false → q.capacity_limit = 0 →
      pushBackRun q xs = some { q with dequeue := q.dequeue ++ xs } := by
  intro xs
  induction xs with
  | nil =>
    intro q hpb hcap
    simp [pushBackRun]
  | cons x xs ih =>
    intro q hpb hcap
    simp only [pushBackRun, push_back_unbounded hpb hcap x 0]
    rw [ih _ (by simp [hpb]) (by simp [hcap])]
    simp

theorem pushFrontRun_unbounded {T : Type} :
    ∀ (xs : List T) (q : BlockingQueue T), q.push_block = false → q.capacity_limit = 0 →
      pushFrontRun q xs = some { q with dequeue := xs.reverse ++ q.dequeue } := by
  intro xs
  induction xs with
  | nil =>
    intro q hpb hcap
    simp [pushFrontRun]
  | cons x xs ih =>
    intro q hpb hcap
    simp only [pushFrontRun, push_front_unbounded hpb hcap x 0]
    rw [ih _ (by simp [hpb]) (by simp [hcap])]
    simp

theorem consumerGate_active_of_pred {T : Type} {q : BlockingQueue T}
    (ha : q.active = true) (hp : consumerPred q = true) (t : Int) :
    consumerGate q t = some true := by
  by_cases ht : t ≠ 0
  · rw [consumerGate, if_pos ht]
    show (if (!q.active || !consumerPred q) = true then some false else some true) =
      some true
    rw [if_neg (by simp [ha, hp])]
  · rw [consumerGate, if_neg ht, if_pos hp, if_neg (by simp [ha])]

theorem consumerGate_active_empty_timed {T : Type} {q : BlockingQueue T}
    (ha : q.active = true) (hd : q.dequeue = []) {t : Int} (ht : t ≠ 0) :
    consumerGate q t = some false := by
  rw [consumerGate, if_pos ht]
  show (if (!q.active || !consumerPred q) = true then some false else some true) =
    some false
  rw [if_pos (by simp [consumerPred, ha, hd])]

theorem consumerGate_active_empty_untimed {T : Type} {q : BlockingQueue T}
    (ha : q.active = true) (hd : q.dequeue = []) : consumerGate q 0 = none := by
  rw [consumerGate, if_neg (by simp), if_neg (by simp [consumerPred, ha, hd])]

theorem pop_front_cons {T : Type} {q : BlockingQueue T} {x : T} {xs : List T}
    (ha : q.active = true) (hd : q.dequeue = x :: xs) (t : Int) :
    pop_front q t = .ret true (some x) { q with dequeue := xs } := by
  rw [pop_front, consumerGate_active_of_pred ha (by simp [consumerPred, ha, hd]) t, hd]

theorem pop_back_concat {T : Type} {q : BlockingQueue T} {ys : List T} {y : T}
    (ha : q.active = true) (hd : q.dequeue = ys ++ [y]) (t : Int) :
    pop_back q t = .ret true (some y) { q with dequeue := ys } := by
  rw [pop_back, consumerGate_active_of_pred ha (by simp [consumerPred, ha, hd]) t, hd]
  simp [List.getLast?_concat, List.dropLast_concat]

theorem pop_front_empty_timed {T : Type} {q : BlockingQueue T} (ha : q.active = true)
    (hd : q.dequeue = []) {t : Int} (ht : t ≠ 0) : pop_front q t = .ret false none q := by
  rw [pop_front, consumerGate_active_empty_timed ha hd ht]

theorem pop_front_empty_untimed {T : Type} {q : BlockingQueue T} (ha : q.active = true)
    (hd : q.dequeue = []) : pop_front q 0 = .blocked := by
  rw [pop_front, consumerGate_active_empty_untimed ha hd]

theorem pop_back_empty_timed {T : Type} {q : BlockingQueue T} (ha : q.active = true)
    (hd : q.dequeue = []) {t : Int} (ht : t ≠ 0) : pop_back q t = .ret false none q := by
  rw [pop_back, consumerGate_active_empty_timed ha hd ht]

theorem pop_back_empty_untimed {T : Type} {q : BlockingQueue T} (ha : q.active = true)
    (hd : q.dequeue = []) : pop_back q 0 = .blocked := by
  rw [pop_back, consumerGate_active_empty_untimed ha hd]

theorem popFrontN_spec {T : Type} :
    ∀ (l : List T) (q : BlockingQueue T), q.active = true → q.dequeue = l →
      popFrontN q l.length = some (l, { q with dequeue := [] }) := by
  intro l
  induction l with
  | nil =>
    intro q ha hd
    cases q with
    | mk pb a c d =>
      simp only [BlockingQueue.dequeue] at hd
      subst hd
      rfl
  | cons x xs ih =>
    intro q ha hd
    rw [List.length_cons]
    simp only [popFrontN, pop_front_cons ha hd 0]
    rw [ih { q with dequeue := xs } (by simpa using ha) rfl]

theorem popBackN_spec {T : Type} :
    ∀ (l : List T) (q : BlockingQueue T), q.active = true → q.dequeue = l →
      popBackN q l.length = some (l.reverse, { q with dequeue := [] }) := by
  intro l
  induction l using List.reverseRecOn with
  | nil =>
    intro q ha hd
    cases q with
    | mk pb a c d =>
      simp only [BlockingQueue.dequeue] at hd
      subst hd
      rfl
  | append_singleton ys y ih =>
    intro q ha hd
    have hlen : (ys ++ [y]).length = ys.length + 1 := by simp
    rw [hlen]
    simp only [popBackN, pop_back_concat ha hd 0]
    rw [ih { q with dequeue := ys } (by simpa using ha) rfl]
    simp

theorem queueRun_refines {T : Type} :
    ∀ (ops : List (DequeOp T)) (q qf : BlockingQueue T) (outs : List (Option T)),
      q.push_block = false → q.capacity_limit = 0 → q.active = true →
      queueRun q ops = some (qf, outs) →
      qf.dequeue = (specDequeRun q.dequeue ops).1 ∧
        outs = (specDequeRun q.dequeue ops).2 := by
  intro ops
  induction ops with
  | nil =>
    intro q qf outs hpb hcap ha hrun
    simp only [queueRun, Option.some.injEq, Prod.mk.injEq] at hrun
    obtain ⟨h1, h2⟩ := hrun
    subst h1
    subst h2
    exact ⟨rfl, rfl⟩
  | cons op ops ih =>
    intro q qf outs hpb hcap ha hrun
    cases op with
    | pushBackOp x t =>
      simp only [queueRun, queueStep, push_back_unbounded hpb hcap x t] at hrun
      cases hr2 : queueRun { q with dequeue := q.dequeue ++ [x] } ops with
      | none => rw [hr2] at hrun; simp at hrun
      | some p =>
        obtain ⟨qf2, outs2⟩ := p
        rw [hr2] at hrun
        simp only [Option.some.injEq, Prod.mk.injEq] at hrun
        obtain ⟨h1, h2⟩ := hrun
        subst h1
        subst h2
        have hih := ih _ qf2 outs2 (by simp [hpb]) (by simp [hcap]) (by simp [ha]) hr2
        simp only [BlockingQueue.dequeue] at hih
        simp only [specDequeRun, specDequeStep]
        exact ⟨hih.1, by rw [hih.2]⟩
    | pushFrontOp x t =>
      simp only [queueRun, queueStep, push_front_unbounded hpb hcap x t] at hrun
      cases hr2 : queueRun { q with dequeue := x :: q.dequeue } ops with
      | none => rw [hr2] at hrun; simp at hrun
      | some p =>
        obtain ⟨qf2, outs2⟩ := p
        rw [hr2] at hrun
        simp only [Option.some.injEq, Prod.mk.injEq] at hrun
        obtain ⟨h1, h2⟩ := hrun
        subst h1
        subst h2
        have hih := ih _ qf2 outs2 (by simp [hpb]) (by simp [hcap]) (by simp [ha]) hr2
        simp only [BlockingQueue.dequeue] at hih
        simp only [specDequeRun, specDequeStep]
        exact ⟨hih.1, by rw [hih.2]⟩
    | popFrontOp t =>
      cases hd : q.dequeue with
      | nil =>
        by_cases ht : t = 0
        · subst ht
          simp only [queueRun, queueStep, pop_front_empty_untimed ha hd] at hrun
          exact absurd hrun (by simp)
        · simp only [queueRun, queueStep, pop_front_empty_timed ha hd ht] at hrun
          cases hr2 : queueRun q ops with
          | none => rw [hr2] at hrun; simp at hrun
          | some p =>
            obtain ⟨qf2, outs2⟩ := p
            rw [hr2] at hrun
            simp only [Option.some.injEq, Prod.mk.injEq] at hrun
            obtain ⟨h1, h2⟩ := hrun
            subst h1
            subst h2
            have hih := ih q qf2 outs2 hpb hcap ha hr2
            rw [hd] at hih
            simp only [specDequeRun, specDequeStep]
            exact ⟨hih.1, by rw [hih.2]⟩
      | cons y ys =>
        simp only [queueRun, queueStep, pop_front_cons ha hd t] at hrun
        cases hr2 : queueRun { q with dequeue := ys } ops with
        | none => rw [hr2] at hrun; simp at hrun
        | some p =>
          obtain ⟨qf2, outs2⟩ := p
          rw [hr2] at hrun
          simp only [Option.some.injEq, Prod.mk.injEq] at hrun
          obtain ⟨h1, h2⟩ := hrun
          subst h1
          subst h2
          have hih := ih _ qf2 outs2 (by simp [hpb]) (by simp [hcap]) (by simp [ha]) hr2
          simp only [BlockingQueue.dequeue] at hih
          simp only [specDequeRun, specDequeStep]
          exact ⟨hih.1, by rw [hih.2]⟩
    | popBackOp t =>
      rcases List.eq_nil_or_concat q.dequeue with hd | ⟨ys, y, hd⟩
      · by_cases ht : t = 0
        · subst ht
          simp only [queueRun, queueStep, pop_back_empty_untimed ha hd] at hrun
          exact absurd hrun (by simp)
        · simp only [queueRun, queueStep, pop_back_empty_timed ha hd ht] at hrun
          cases hr2 : queueRun q ops with
          | none => rw [hr2] at hrun; simp at hrun
          | some p =>
            obtain ⟨qf2, outs2⟩ := p
            rw [hr2] at hrun
            simp only [Option.some.injEq, Prod.mk.injEq] at hrun
            obtain ⟨h1, h2⟩ := hrun
            subst h1
            subst h2
            have hih := ih q qf2 outs2 hpb hcap ha hr2
            rw [hd] at hih
            rw [hd]
            simp only [specDequeRun, specDequeStep, List.getLast?_nil]
            exact ⟨hih.1, by rw [hih.2]⟩
      · rw [List.concat_eq_append] at hd
        simp only [queueRun, queueStep, pop_back_concat ha hd t] at hrun
        cases hr2 : queueRun { q with dequeue := ys } ops with
        | none => rw [hr2] at hrun; simp at hrun
        | some p =>
          obtain ⟨qf2, outs2⟩ := p
          rw [hr2] at hrun
          simp only [Option.some.injEq, Prod.mk.injEq] at hrun
          obtain ⟨h1, h2⟩ := hrun
          subst h1
          subst h2
          have hih := ih _ qf2 outs2 (by simp [hpb]) (by simp [hcap]) (by simp [ha]) hr2
          simp only [BlockingQueue.dequeue] at hih
          rw [hd]
          simp only [specDequeRun, specDequeStep,
            List.getLast?_concat, List.dropLast_concat]
          exact ⟨hih.1, by rw [hih.2]⟩

theorem reaches_preserves_inv {T : Type} {cap : Nat} (hc : cap ≠ 0)
    {q0 q : BlockingQueue T} (h0 : q0.capacity_limit = cap)
    (hl0 : q0.dequeue.length ≤ cap) (hr : Reaches q0 q) :
    q.capacity_limit = cap ∧ q.dequeue.length ≤ cap := by
  induction hr with
  | refl => exact ⟨h0, hl0⟩
  | step hr hs ih => exact stepState_preserves_inv hc ih.1 ih.2 hs

/-! ## Claims -/

/-- Claim C1, counterexample: on the queue obtained by closing a fresh
non-blocking unbounded queue — whose buffer is empty and whose `active` flag
is false — the very next `push_back` returns success (`true`) and inserts
its element, so a push issued after close neither fails nor leaves the
buffer empty. -/
theorem push_back_after_close_succeeds_cex :
    (close (mkQueue Nat 0 false)).active = false ∧
    (close (mkQueue Nat 0 false)).dequeue = [] ∧
    push_back (close (mkQueue Nat 0 false)) 7 0 =
      PushOutcome.ret true true
        { push_block := false, active := false, capacity_limit := 0, dequeue := [7] } :=
  ⟨rfl, rfl, rfl⟩

/-- Claim C1, amended: once `active == false`, every `pop_front`/`pop_back`
(timed or untimed) and every blocking-mode push returns failure without
touching the buffer or the output slot; but a non-blocking-mode push, with
any timeout, does not consult the `active` flag at all: it runs its eviction
loop and inserts the element — `push_back` returning `true`, `push_front`
inserting and notifying but returning an undefined boolean (its success path
has no `return` statement) — so the buffer does not remain empty under
non-blocking pushes issued after close. -/
theorem after_close_behavior (q : BlockingQueue Nat) (hact : q.active = false) :
    (∀ t : Int, pop_front q t = .ret false none q ∧ pop_back q t = .ret false none q) ∧
    (∀ (x : Nat) (t : Int), q.push_block = true →
      push_back q x t = .ret false false q ∧ push_front q x t = .ret false false q) ∧
    (∀ (x : Nat) (t : Int), q.push_block = false →
      push_back q x t = .ret true true
        { q with dequeue := evictFrontWhileFull q.capacity_limit q.dequeue ++ [x] } ∧
      push_front q x t = .retUndef true
        { q with dequeue := x :: evictBackWhileFull q.capacity_limit q.dequeue }) := by
  have hcg : ∀ t : Int, consumerGate q t = some false := by
    intro t
    by_cases ht : t ≠ 0
    · rw [consumerGate, if_pos ht]
      show (if (!q.active || !consumerPred q) = true then some false else some true) =
        some false
      rw [if_pos (by simp [hact])]
    · rw [consumerGate, if_neg ht, if_pos (by simp [consumerPred, hact]),
        if_pos (by simp [hact])]
  have hpg : ∀ t : Int, producerGate q t = some false := by
    intro t
    by_cases ht : t ≠ 0
    · rw [producerGate, if_pos ht]
      show (if (!q.active || !producerPred q) = true then some false else some true) =
        some false
      rw [if_pos (by simp [hact])]
    · rw [producerGate, if_neg ht, if_pos (by simp [producerPred, hact]),
        if_pos (by simp [hact])]
  refine ⟨fun t => ⟨?_, ?_⟩, fun x t hpb => ⟨?_, ?_⟩, fun x t hpb => ⟨?_, ?_⟩⟩
  · rw [pop_front, hcg t]
  · rw [pop_back, hcg t]
  · rw [push_back, if_pos hpb, hpg t]
  · rw [push_front, if_pos hpb, hpg t]
  · rw [push_back, if_neg (by simp [hpb])]
  · rw [push_front, if_neg (by simp [hpb])]

/-- Witness for `after_close_behavior` at a concrete closed queue. -/
theorem after_close_behavior_witness :
    (close (mkQueue Nat 0 false)).active = false ∧
    pop_front (close (mkQueue Nat 0 false)) 0 =
      PopOutcome.ret false none (close (mkQueue Nat 0 false)) :=
  ⟨rfl, ((after_close_behavior (close (mkQueue Nat 0 false)) rfl).1 0).1⟩

/-- Claim C2: the header draft's timed `PopFront` waits on the predicate
`(!active_) || (deque_.empty())` — so on an empty open queue the wait is
satisfied immediately and the call proceeds to read `deque_.front()` of the
empty deque (undefined behavior) instead of waiting for an element or
failing on expiry without touching the buffer. -/
theorem hpp_timed_pop_empty_open_ub :
    hppPopFront (mkQueue Nat 0 false) 5 = PopOutcome.ubAccess := by
  rfl

/-- Claim C3: `push_front` on a fresh non-blocking queue inserts its element
and performs `_consumer.notify_one()` (the `true` flag of `retUndef`), but
control then reaches the end of the `bool` function with no `return`
statement, so the returned boolean is undefined (`retUndef`) rather than the
documented `true`. -/
theorem push_front_missing_return :
    push_front (mkQueue Nat 0 false) 7 0 =
      PushOutcome.retUndef true
        { push_block := false, active := true, capacity_limit := 0, dequeue := [7] } := by
  rfl

/-- Claim C4: from the empty initial state of a queue constructed with
`capacity_limit = cap ≠ 0`, every externally observable state `q` (reached
by any sequence of returning push/pop/close/clear calls, in either mode)
satisfies `size q ≤ cap`. -/
theorem capacity_invariant_reachable (cap : Nat) (pb : Bool) (q : BlockingQueue Nat)
    (hc : cap ≠ 0) (hr : Reaches (mkQueue Nat cap pb) q) : size q ≤ cap :=
  (reaches_preserves_inv hc rfl (by simp [mkQueue]) hr).2

/-- Witness for `capacity_invariant_reachable`: a capacity-1 queue after one
`push_back`. -/
theorem capacity_invariant_reachable_witness :
    (1 ≠ 0) ∧ size (⟨false, true, 1, [5]⟩ : BlockingQueue Nat) ≤ 1 :=
  ⟨by decide,
    capacity_invariant_reachable 1 false ⟨false, true, 1, [5]⟩ (by decide)
      (Reaches.step (Reaches.refl (mkQueue Nat 1 false))
        (show stepState (mkQueue Nat 1 false) (Op.pushBackOp 5 0) =
          some ⟨false, true, 1, [5]⟩ from rfl))⟩

/-- Claim C5: in non-blocking mode with a nonzero capacity and a full
buffer, `push_back` evicts the front (oldest) element then appends, and
`push_front` evicts the back element then prepends; concretely, on a
capacity-2 non-blocking queue the calls `push_back 1; push_back 2;
push_back 3` leave the buffer `[2, 3]`. -/
theorem nonblocking_eviction_policy :
    pushBackRun (mkQueue Nat 2 false) [1, 2, 3] =
      some { push_block := false, active := true, capacity_limit := 2, dequeue := [2, 3] } ∧
    (∀ (q : BlockingQueue Nat) (x : Nat), q.push_block = false → q.capacity_limit ≠ 0 →
      q.dequeue.length = q.capacity_limit →
      push_back q x 0 = .ret true true { q with dequeue := q.dequeue.tail ++ [x] } ∧
      push_front q x 0 = .retUndef true { q with dequeue := x :: q.dequeue.dropLast }) := by
  constructor
  · rfl
  · intro q x hpb hc hfull
    constructor
    · rw [push_back, if_neg (by simp [hpb])]
      simp [evictFrontWhileFull_eq_tail hc hfull]
    · rw [push_front, if_neg (by simp [hpb])]
      simp [evictBackWhileFull_eq_dropLast hc hfull]

/-- Witness for `nonblocking_eviction_policy` at a full capacity-2 queue. -/
theorem nonblocking_eviction_policy_witness :
    (⟨false, true, 2, [1, 2]⟩ : BlockingQueue Nat).push_block = false ∧
    (⟨false, true, 2, [1, 2]⟩ : BlockingQueue Nat).capacity_limit ≠ 0 ∧
    (push_back (⟨false, true, 2, [1, 2]⟩ : BlockingQueue Nat) 3 0 =
        PushOutcome.ret true true ⟨false, true, 2, [2, 3]⟩ ∧
      push_front (⟨false, true, 2, [1, 2]⟩ : BlockingQueue Nat) 3 0 =
        PushOutcome.retUndef true ⟨false, true, 2, [3, 1]⟩) :=
  ⟨rfl, by decide,
    nonblocking_eviction_policy.2 ⟨false, true, 2, [1, 2]⟩ 3 rfl (by decide) rfl⟩

/-- Claim C6, counterexample: on a fresh (hence empty) queue, `front()` and
`back()` perform the boundary access on the empty deque — the `ub` outcome —
so the accessors are not a checked, defined failure. -/
theorem front_back_empty_ub_cex :
    (mkQueue Nat 0 false).dequeue = [] ∧
    front (mkQueue Nat 0 false) = PeekOutcome.ub ∧
    back (mkQueue Nat 0 false) = PeekOutcome.ub :=
  ⟨rfl, rfl, rfl⟩

/-- Claim C6, amended: `front()` and `back()` contain no emptiness check: on
every state with an empty buffer they access the boundary element of the
empty deque (undefined behavior), so the caller must guarantee nonemptiness
before calling them. -/
theorem front_back_empty_unchecked (q : BlockingQueue Nat) (h : q.dequeue = []) :
    front q = PeekOutcome.ub ∧ back q = PeekOutcome.ub := by
  simp [front, back, h]

/-- Witness for `front_back_empty_unchecked` at a fresh queue. -/
theorem front_back_empty_unchecked_witness :
    (mkQueue Nat 0 false).dequeue = [] ∧
    (front (mkQueue Nat 0 false) = PeekOutcome.ub ∧
      back (mkQueue Nat 0 false) = PeekOutcome.ub) :=
  ⟨rfl, front_back_empty_unchecked (mkQueue Nat 0 false) rfl⟩

/-- Claim C7: the older draft's `clear()` never returns on a nonempty
queue — its leading busy loop `while (_dequeue.size()) {}` has an empty body
and runs under the lock, so the size can never change and no amount of fuel
makes the loop exit. -/
theorem clear_nonempty_never_returns :
    ∀ (fuel : Nat) (q : BlockingQueue Nat), q.dequeue ≠ [] → clear fuel q = none := by
  intro fuel q hne
  have hloop : ∀ (f : Nat) (l : List Nat), l ≠ [] → clearBusyLoop f l = none := by
    intro f
    induction f with
    | zero => intro l h; rfl
    | succ n ih =>
      intro l h
      rw [clearBusyLoop, if_pos (by simpa [List.length_eq_zero] using h)]
      exact ih l h
  rw [clear, hloop fuel q.dequeue hne]

/-- Witness for `clear_nonempty_never_returns` at a one-element queue. -/
theorem clear_nonempty_never_returns_witness :
    (⟨false, true, 0, [1]⟩ : BlockingQueue Nat).dequeue ≠ [] ∧
    clear 5 (⟨false, true, 0, [1]⟩ : BlockingQueue Nat) = none :=
  ⟨by decide, clear_nonempty_never_returns 5 ⟨false, true, 0, [1]⟩ (by decide)⟩

/-- Claim C8: in blocking mode with a nonzero capacity, an active queue
whose buffer is full, and a nonzero timeout, the producer wait expires with
its predicate still false, so both `push_back` and `push_front` return
failure and the state — in particular the buffer — is unchanged: the element
is never inserted. -/
theorem blocking_push_timeout_fails (q : BlockingQueue Nat) (x : Nat) (t : Int)
    (hpb : q.push_block = true) (ha : q.active = true) (hc : q.capacity_limit ≠ 0)
    (hfull : q.capacity_limit ≤ q.dequeue.length) (ht : t ≠ 0) :
    push_back q x t = .ret false false q ∧ push_front q x t = .ret false false q := by
  have hpred : producerPred q = false := by
    simp [producerPred, ha, hc]
    omega
  have hg : producerGate q t = some false := by
    rw [producerGate, if_pos ht]
    show (if (!q.active || !producerPred q) = true then some false else some true) =
      some false
    rw [if_pos (by simp [hpred])]
  exact ⟨by rw [push_back, if_pos hpb, hg], by rw [push_front, if_pos hpb, hg]⟩

/-- Witness for `blocking_push_timeout_fails` at a full capacity-1 blocking
queue with timeout 10. -/
theorem blocking_push_timeout_fails_witness :
    ((⟨true, true, 1, [5]⟩ : BlockingQueue Nat).push_block = true ∧
      (⟨true, true, 1, [5]⟩ : BlockingQueue Nat).active = true ∧
      (⟨true, true, 1, [5]⟩ : BlockingQueue Nat).capacity_limit ≠ 0 ∧
      (10 : Int) ≠ 0) ∧
    push_back (⟨true, true, 1, [5]⟩ : BlockingQueue Nat) 9 10 =
      PushOutcome.ret false false ⟨true, true, 1, [5]⟩ :=
  ⟨⟨rfl, rfl, by decide, by decide⟩,
    (blocking_push_timeout_fails ⟨true, true, 1, [5]⟩ 9 10 rfl rfl (by decide)
      (by decide) (by decide)).1⟩

/-- Batch push-all-then-pop-all order facts on an unbounded non-blocking
queue: pushing `xs` at the back and popping all from the front returns `xs`
(FIFO); pushing at the front and popping at the back also returns `xs`; the
same-end combinations return `xs.reverse`. -/
theorem unbounded_deque_semantics (xs : List Nat) :
    runBackFront xs = some xs ∧ runFrontBack xs = some xs ∧
    runBackBack xs = some xs.reverse ∧ runFrontFront xs = some xs.reverse := by
  have hb := pushBackRun_unbounded xs (mkQueue Nat 0 false) rfl rfl
  have hf := pushFrontRun_unbounded xs (mkQueue Nat 0 false) rfl rfl
  have hlen : xs.length = xs.reverse.length := (List.length_reverse xs).symm
  refine ⟨?_, ?_, ?_, ?_⟩
  · simp only [runBackFront, hb]
    rw [popFrontN_spec xs _ rfl rfl]
    rfl
  · simp only [runFrontBack, hf]
    rw [hlen, popBackN_spec xs.reverse _ rfl (by simp [mkQueue])]
    simp
  · simp only [runBackBack, hb]
    rw [popBackN_spec xs _ rfl rfl]
    rfl
  · simp only [runFrontFront, hf]
    rw [hlen, popFrontN_spec xs.reverse _ rfl (by simp [mkQueue])]
    rfl

/-- Claim C9: on one thread, a queue constructed unbounded
(`capacity_limit = 0`) and non-blocking behaves as an ordinary double-ended
queue.  First conjunct: for every sequence of push/pop calls with arbitrary
timeouts, whenever the run of the real queue completes (no call blocks
forever), its final buffer and the sequence of elements delivered to the
callers — in particular the order successive successful `pop_front` calls
deliver what the `push_back` calls inserted, and symmetrically for the other
combinations — coincide with those of the ordinary unbounded double-ended
queue run over the same calls.  Second conjunct: the four batch
push-all-then-pop-all order patterns (FIFO for back-push/front-pop and for
front-push/back-pop, reversal for the same-end combinations). -/
theorem unbounded_single_thread_deque :
    (∀ (ops : List (DequeOp Nat)) (q qf : BlockingQueue Nat) (outs : List (Option Nat)),
      q.push_block = false → q.capacity_limit = 0 → q.active = true →
      queueRun q ops = some (qf, outs) →
      qf.dequeue = (specDequeRun q.dequeue ops).1 ∧
        outs = (specDequeRun q.dequeue ops).2) ∧
    (∀ xs : List Nat,
      runBackFront xs = some xs ∧ runFrontBack xs = some xs ∧
      runBackBack xs = some xs.reverse ∧ runFrontFront xs = some xs.reverse) :=
  ⟨queueRun_refines, unbounded_deque_semantics⟩

/-- Witness for `unbounded_single_thread_deque` at the concrete interleaved
sequence `demoOps` on a fresh unbounded non-blocking queue. -/
theorem unbounded_single_thread_deque_witness :
    ((mkQueue Nat 0 false).push_block = false ∧
      (mkQueue Nat 0 false).capacity_limit = 0 ∧
      (mkQueue Nat 0 false).active = true ∧
      queueRun (mkQueue Nat 0 false) demoOps =
        some (⟨false, true, 0, []⟩,
          [none, none, some 1, none, some 2, some 3, none])) ∧
    ((⟨false, true, 0, []⟩ : BlockingQueue Nat).dequeue =
        (specDequeRun (mkQueue Nat 0 false).dequeue demoOps).1 ∧
      [none, none, some 1, none, some 2, some 3, none] =
        (specDequeRun (mkQueue Nat 0 false).dequeue demoOps).2) :=
  ⟨⟨rfl, rfl, rfl, by decide⟩,
    unbounded_single_thread_deque.1 demoOps (mkQueue Nat 0 false) ⟨false, true, 0, []⟩
      [none, none, some 1, none, some 2, some 3, none] rfl rfl rfl (by decide)⟩

/-- Claim C10: `full()` computes `_dequeue.size() >= _capacity_limit` with
no special case for the unbounded sentinel `0`, so on a queue constructed
with `capacity_limit == 0` it returns `true` in every state. -/
theorem full_unbounded_always_true (q : BlockingQueue Nat)
    (h : q.capacity_limit = 0) : full q = true := by
  simp [full, h]

/-- Witness for `full_unbounded_always_true` at the fresh empty unbounded
queue. -/
theorem full_unbounded_always_true_witness :
    (mkQueue Nat 0 false).capacity_limit = 0 ∧ full (mkQueue Nat 0 false) = true :=
  ⟨rfl, full_unbounded_always_true (mkQueue Nat 0 false) rfl⟩

end Cybertron
